import Mathlib

/-!
Verification of `assets/training/finetune_acft_hf_nlp/src/register_model/register_model.py`.

The script is a thin orchestration wrapper: it derives a model name from a
fine-tune metadata JSON file, optionally converts `.bin` weight files to the
safetensors format, builds a property map, submits a registration request to
the cloud registry, and writes the registry response to a JSON file.

The embedding below translates the script's pure logic into Lean:
* Python values appearing in the metadata JSON are modelled by `PyVal`
  (floats are modelled as exact rationals; the only float in the script is
  the literal `1.0`, which is exactly representable).
* Python string operations (`split`, `replace`, `lower`, `join`, negative
  indexing, `re.match`/`re.sub` for the two concrete patterns of the script)
  are modelled over `List Char`, fuel-structurally so that they evaluate by
  kernel reduction.
* The filesystem seen by the weight converter is modelled as the list of
  file names in the model directory (contents are outside the claims).
* External collaborators (the registry client `Model.register`, the
  workspace, `uuid.uuid4`, the file read performed by `json.load`) are
  parameters of the embedded functions: the registry is a function from the
  submitted request to a response or an error, the uuid is a string argument
  constrained by the documented format, and the file read is an
  `Except`-wrapped parsed value.
* Python exceptions are modelled with `Except String`; a `try/except`
  becomes a total function with the fallback value.
-/

/-- A Python/JSON value as handled by the script. -/
inductive PyVal where
  | none : PyVal
  | str (s : String) : PyVal
  | int (n : Int) : PyVal
  | num (q : Rat) : PyVal
  | list (xs : List PyVal) : PyVal
  | dict (fields : List (String × PyVal)) : PyVal

/-- Python `d.get(k)` / `d.get(k, None)`: the value bound to the first
occurrence of `k`, or `None` when the key is absent. -/
def dictGet (d : List (String × PyVal)) (k : String) : PyVal :=
  match d.find? (fun p => p.1 == k) with
  | Option.some p => p.2
  | Option.none => PyVal.none

/-- Python `s.split(sep)` for a nonempty separator, over char lists.
The fuel argument makes the recursion structural; it is adequate whenever
`fuel ≥ l.length` and the separator is nonempty. -/
def splitFuel (sep : List Char) : Nat → List Char → List (List Char)
  | 0, l => [l]
  | _ + 1, [] => [[]]
  | fuel + 1, c :: rest =>
      if sep ≠ [] ∧ sep.isPrefixOf (c :: rest) then
        [] :: splitFuel sep fuel ((c :: rest).drop sep.length)
      else
        match splitFuel sep fuel rest with
        | [] => [[c]]
        | h :: t => (c :: h) :: t

/-- Python `s.split(sep)`: every occurrence of `sep` splits, empty pieces
are kept, and `"".split(sep) = [""]`. -/
def pySplit (s sep : String) : List String :=
  (splitFuel sep.data s.data.length s.data).map (fun l => String.mk l)

/-- Python `sep.join(xs)`. -/
def pyJoin (sep : String) : List String → String
  | [] => ""
  | [x] => x
  | x :: y :: rest => x ++ sep ++ pyJoin sep (y :: rest)

/-- Python `xs[i]` with negative-index support; `Option.none` models the
`IndexError` raised when the index is out of range. -/
def pyIndex {α : Type} (xs : List α) (i : Int) : Option α :=
  if 0 ≤ i then xs.get? i.toNat
  else if (-i).toNat ≤ xs.length then xs.get? (xs.length - (-i).toNat)
  else Option.none

/-- Python `s.replace(pat, rep)` for a nonempty pattern, over char lists:
left-to-right, non-overlapping replacement of every occurrence.  The fuel
argument makes the recursion structural; it is adequate whenever
`fuel ≥ l.length` and `pat ≠ []`. -/
def replaceFuel (pat rep : List Char) : Nat → List Char → List Char
  | 0, l => l
  | _ + 1, [] => []
  | fuel + 1, c :: rest =>
      if pat.isPrefixOf (c :: rest) then
        rep ++ replaceFuel pat rep fuel ((c :: rest).drop pat.length)
      else
        c :: replaceFuel pat rep fuel rest

/-- Python `s.replace(pat, rep)` (nonempty `pat`). -/
def pyReplace (s pat rep : String) : String :=
  String.mk (replaceFuel pat.data rep.data s.data.length s.data)

/-- ASCII model of Python `str.lower` on one character.  (None of the
strings compared by the script contain characters whose Unicode lowercase
differs from the ASCII one.) -/
def pyLowerChar (c : Char) : Char :=
  if 'A' ≤ c ∧ c ≤ 'Z' then Char.ofNat (c.toNat + 32) else c

/-- Python `s.lower()` (ASCII model). -/
def pyLower (s : String) : String :=
  String.mk (s.data.map pyLowerChar)

/-! Constants of the script. -/

def SUPPORTED_MODEL_ASSET_TYPES : List String := ["Custom", "PRESETS"]

def REGISTRATION_DETAILS_JSON_FILE : String := "model_registration_details.json"

def DEFAULT_MODEL_NAME : String := "default_model_name"

/-- A character of the class `[a-zA-Z0-9-]`. -/
def isAllowedChar (c : Char) : Bool :=
  ('a' ≤ c ∧ c ≤ 'z') ∨ ('A' ≤ c ∧ c ≤ 'Z') ∨ ('0' ≤ c ∧ c ≤ '9') ∨ c = '-'

/-- Nonempty and made only of characters of the class `[a-zA-Z0-9-]`. -/
def allAllowedNonempty (l : List Char) : Bool :=
  (!l.isEmpty) && l.all isAllowedChar

/-- Python `re.match(r"^[a-zA-Z0-9-]+$", s) is not None`
(`VALID_MODEL_NAME_PATTERN`).  In Python, `$` also matches just before a
single trailing newline, hence the second disjunct. -/
def reMatchValid (s : String) : Bool :=
  allAllowedNonempty s.data ||
    (match s.data.getLast? with
     | Option.some c => (c == '\n') && allAllowedNonempty s.data.dropLast
     | Option.none => false)

/-- Python `re.sub(r"[^a-zA-Z0-9-]", "-", s)` (`NEGATIVE_MODEL_NAME_PATTERN`):
every character outside the class is replaced by a hyphen. -/
def reSubNegative (s : String) : String :=
  String.mk (s.data.map (fun c => if isAllowedChar c then c else '-'))

/-- `str2bool`: lowercase the argument and map `"true"/"1"` to `True`,
`"false"/"0"` to `False`, anything else to a `ValueError`. -/
def str2bool (s : String) : Except String Bool :=
  let arg := pyLower s
  if arg = "true" ∨ arg = "1" then Except.ok true
  else if arg = "false" ∨ arg = "0" then Except.ok false
  else Except.error ("Invalid argument " ++ arg ++ " to while converting string to boolean")

/-! `get_model_name`. -/

/-- The body of the `try` block of `get_model_name`:
`finetune_args_dict.get("model_asset_id").split("/")[-3]`, with the
`except` fallback `DEFAULT_MODEL_NAME` when the key is absent, its value
is not a string (`.split` raises `AttributeError`), or the split has
fewer than three segments (`IndexError`). -/
def extractBase (d : List (String × PyVal)) : String :=
  match dictGet d "model_asset_id" with
  | PyVal.str s =>
      (match pyIndex (pySplit s "/") (-3) with
       | Option.some b => b
       | Option.none => DEFAULT_MODEL_NAME)
  | _ => DEFAULT_MODEL_NAME

/-- The guarded extraction of `get_model_name` on the parsed JSON value:
when the value is not a dict, `.get` raises an `AttributeError`, which the
`except` clause also catches into `DEFAULT_MODEL_NAME`. -/
def get_model_name_base : PyVal → String
  | PyVal.dict d => extractBase d
  | _ => DEFAULT_MODEL_NAME

/-- `get_model_name`.  The `open`/`json.load` of the metadata file happens
before the `try` block, so a read or parse failure propagates: it is
modelled by the `Except`-wrapped `fileContents` argument.  The fresh
`str(uuid.uuid4())` is the argument `u`. -/
def get_model_name (fileContents : Except String PyVal) (u : String) : Except String String :=
  match fileContents with
  | Except.error e => Except.error e
  | Except.ok v => Except.ok (get_model_name_base v ++ "-ft-" ++ u)

/-- Modelled from the spec: the output format of `str(uuid.uuid4())`
(Python standard library, external to the script) — 36 characters,
hyphens at positions 8, 13, 18 and 23, lowercase hex digits elsewhere. -/
def isUuid4String (u : String) : Bool :=
  u.data.length == 36 &&
    u.data.enum.all (fun ic =>
      if ic.1 = 8 ∨ ic.1 = 13 ∨ ic.1 = 18 ∨ ic.1 = 23 then ic.2 == '-'
      else ('0' ≤ ic.2 ∧ ic.2 ≤ '9') ∨ ('a' ≤ ic.2 ∧ ic.2 ≤ 'f'))

/-! `convert_lora_weights_to_safetensors`.  The model directory is the list
of its file names; `torch.load`/`save_file` contents are outside the
claims. -/

/-- Modelled from the spec: `find_files_with_inc_excl_pattern(model_path,
include_pat=".bin$")` (helper from the `io_utils` module, external to this
file) selects the files whose names match the binary-weight naming
convention, i.e. end in `.bin`. -/
def matchesBin (name : String) : Bool :=
  ".bin".data.isSuffixOf name.data

/-- The name `save_file` writes to:
`bin_file.replace(".bin", ".safetensors")`. -/
def convertName (name : String) : String :=
  pyReplace name ".bin" ".safetensors"

/-- `save_file(..., name)`: creates the file, or overwrites it if present
(the set of names gains `name`). -/
def saveFile (fs : List String) (name : String) : List String :=
  if name ∈ fs then fs else fs ++ [name]

/-- `os.remove(name)`. -/
def removeFile (fs : List String) (name : String) : List String :=
  fs.erase name

/-- The loop body of `convert_lora_weights_to_safetensors`: for each
matched file, write the converted file and then delete the original. -/
def convertLoop (fs : List String) : List String → List String
  | [] => fs
  | f :: rest => convertLoop (removeFile (saveFile fs (convertName f)) f) rest

/-- `convert_lora_weights_to_safetensors`: snapshot the matched files,
then convert each. -/
def convert_lora_weights_to_safetensors (files : List String) : List String :=
  convertLoop files (files.filter matchesBin)

/-! `get_properties`. -/

/-- `get_properties`.  The only mapped key is
`baseModelId ← model_asset_id`, whose value is transformed by
`"/".join(value.split('/')[:-2])`; then the fixed property
`baseModelWeightsVersion = 1.0` is merged in.  When `model_asset_id` is
absent, `dict.get` returns `None` and the subsequent `.split` raises an
unguarded `AttributeError`; the same happens for a non-string value. -/
def get_properties (d : List (String × PyVal)) : Except String (List (String × PyVal)) :=
  match dictGet d "model_asset_id" with
  | PyVal.str s =>
      Except.ok
        [("baseModelId",
            PyVal.str (pyJoin "/" ((pySplit s "/").take ((pySplit s "/").length - 2)))),
         ("baseModelWeightsVersion", PyVal.num 1)]
  | _ => Except.error "AttributeError"

/-- Modelled from the spec: a slash-delimited identifier with its last two
slash-delimited segments dropped. -/
def dropLastTwoSlashSegments (s : String) : String :=
  pyJoin "/" (((pySplit s "/").dropLast).dropLast)

/-! `register_model`. -/

/-- The options bag produced by `parse_args`. -/
structure Args where
  model_path : String
  convert_to_safetensors : Bool
  copy_model_to_output : Bool
  model_type : String
  model_name : String
  finetune_args_path : String
  model_version : Option String
  registration_details_folder : String

/-- The arguments of the `Model.register` call. -/
structure RegisterRequest where
  workspace : String
  model_path : String
  model_name : String
  model_framework : String
  description : String
  tags : List (String × PyVal)
  properties : List (String × PyVal)

/-- The registry's returned representation of the registered model. -/
structure RegisterResponse where
  id : String
  name : String
  version : Int
  model_framework : String
  properties : List (String × PyVal)
  tags : List (String × PyVal)
  description : String

/-- The `model_info` dict serialized into the registration details file. -/
def modelInfo (m : RegisterResponse) : List (String × PyVal) :=
  [("id", PyVal.str m.id),
   ("name", PyVal.str m.name),
   ("version", PyVal.int m.version),
   ("type", PyVal.str m.model_framework),
   ("properties", PyVal.dict m.properties),
   ("tags", PyVal.dict m.tags),
   ("description", PyVal.str m.description)]

/-- Lines 200–204 of the script: keep a name matching
`VALID_MODEL_NAME_PATTERN`, otherwise substitute every disallowed
character with a hyphen. -/
def finalizeModelName (s : String) : String :=
  if reMatchValid s then s else reSubNegative s

/-- The request submitted to `Model.register`: workspace handle, source
path, final (sanitized) name, framework type, empty description, empty
tags, and the property map. -/
def buildRequest (args : Args) (ws : String) (props : List (String × PyVal)) : RegisterRequest :=
  ⟨ws, args.model_path, finalizeModelName args.model_name, args.model_type, "", [], props⟩

/-- `register_model`.  The metadata dict `finetuneArgs` is the parsed
contents of `args.finetune_args_path`; `ws` is the workspace from
`get_workspace_details`; `registry` is the external `Model.register`
endpoint.  The first component of the result is the list of file writes
performed (path and serialized dict); the second is the outcome, carrying
the submitted request and the registry response on success.  The
registration details file is written only after the register call
returns. -/
def register_model (args : Args) (finetuneArgs : List (String × PyVal)) (ws : String)
    (registry : RegisterRequest → Except String RegisterResponse) :
    List (String × List (String × PyVal)) × Except String (RegisterRequest × RegisterResponse) :=
  match get_properties finetuneArgs with
  | Except.error e => ([], Except.error e)
  | Except.ok props =>
      match registry (buildRequest args ws props) with
      | Except.error e => ([], Except.error e)
      | Except.ok m =>
          ([(args.registration_details_folder ++ "/" ++ REGISTRATION_DETAILS_JSON_FILE,
             modelInfo m)],
           Except.ok (buildRequest args ws props, m))

/-- A registry stub that accepts every request, echoing its fields. -/
def demoRegistry : RegisterRequest → Except String RegisterResponse :=
  fun r =>
    Except.ok ⟨"azureml-id", r.model_name, 1, r.model_framework, r.properties, r.tags,
      r.description⟩

/-- A registry stub that rejects every request. -/
def failRegistry : RegisterRequest → Except String RegisterResponse :=
  fun _ => Except.error "registry down"

/-! Helper lemmas. -/

theorem dropLast_dropLast_eq_take {α : Type} (l : List α) :
    l.dropLast.dropLast = l.take (l.length - 2) := by
  rw [List.dropLast_eq_take, List.dropLast_eq_take, List.take_take, List.length_take]
  congr 1
  omega

theorem reSubNegative_valid (s : String) (h : s ≠ "") :
    reMatchValid (reSubNegative s) = true := by
  have hall : allAllowedNonempty (reSubNegative s).data = true := by
    have hd : s.data ≠ [] := by
      intro hnil
      apply h
      cases s
      cases hnil
      rfl
    unfold reSubNegative allAllowedNonempty
    simp only [Bool.and_eq_true, Bool.not_eq_true', List.all_eq_true]
    constructor
    · simp only [List.isEmpty_eq_false, ne_eq, List.map_eq_nil_iff]
      exact hd
    · intro c hc
      obtain ⟨a, _, rfl⟩ := List.mem_map.mp hc
      by_cases ha : isAllowedChar a = true
      · simp [ha]
      · simp only [ha, Bool.false_eq_true, if_false]
        decide
  unfold reMatchValid
  rw [hall]
  rfl

theorem finalize_valid (s : String) (h : s ≠ "") :
    reMatchValid (finalizeModelName s) = true := by
  unfold finalizeModelName
  by_cases hm : reMatchValid s = true
  · rw [if_pos hm]; exact hm
  · rw [if_neg hm]; exact reSubNegative_valid s h

/-! Claim theorems. -/

/-- C7: `str2bool` returns `True` exactly when the lowercase form of the
input is `"true"` or `"1"`, `False` exactly when it is `"false"` or `"0"`,
raises a `ValueError` exactly otherwise, and on every input either returns
a boolean or raises. -/
theorem str2bool_spec : ∀ s : String,
    ((str2bool s = Except.ok true) ↔ (pyLower s = "true" ∨ pyLower s = "1")) ∧
    ((str2bool s = Except.ok false) ↔ (pyLower s = "false" ∨ pyLower s = "0")) ∧
    ((∃ e, str2bool s = Except.error e) ↔
      ¬(pyLower s = "true" ∨ pyLower s = "1" ∨ pyLower s = "false" ∨ pyLower s = "0")) ∧
    ((∃ b, str2bool s = Except.ok b) ∨ (∃ e, str2bool s = Except.error e)) := by
  intro s
  by_cases h1 : pyLower s = "true" ∨ pyLower s = "1"
  · have e : str2bool s = Except.ok true := by
      simp only [str2bool]
      rw [if_pos h1]
    refine ⟨⟨fun _ => h1, fun _ => e⟩, ⟨fun hc => ?_, fun hc => ?_⟩,
      ⟨fun hc => ?_, fun hc => ?_⟩, Or.inl ⟨true, e⟩⟩
    · rw [e] at hc
      simp at hc
    · rcases h1 with h1 | h1 <;> rcases hc with hc | hc <;> rw [h1] at hc <;>
        exact absurd hc (by decide)
    · obtain ⟨x, hx⟩ := hc
      rw [e] at hx
      simp at hx
    · exact absurd (h1.elim (fun a => Or.inl a) (fun b => Or.inr (Or.inl b))) hc
  · by_cases h2 : pyLower s = "false" ∨ pyLower s = "0"
    · have e : str2bool s = Except.ok false := by
        simp only [str2bool]
        rw [if_neg h1, if_pos h2]
      refine ⟨⟨fun hc => ?_, fun hc => absurd hc h1⟩, ⟨fun _ => h2, fun _ => e⟩,
        ⟨fun hc => ?_, fun hc => ?_⟩, Or.inl ⟨false, e⟩⟩
      · rw [e] at hc
        simp at hc
      · obtain ⟨x, hx⟩ := hc
        rw [e] at hx
        simp at hx
      · exact absurd
          (h2.elim (fun c => Or.inr (Or.inr (Or.inl c))) (fun d => Or.inr (Or.inr (Or.inr d))))
          hc
    · have e : str2bool s =
          Except.error ("Invalid argument " ++ pyLower s ++ " to while converting string to boolean") := by
        simp only [str2bool]
        rw [if_neg h1, if_neg h2]
      refine ⟨⟨fun hc => ?_, fun hc => absurd hc h1⟩, ⟨fun hc => ?_, fun hc => absurd hc h2⟩,
        ⟨fun _ => ?_, fun _ => ⟨_, e⟩⟩, Or.inr ⟨_, e⟩⟩
      · rw [e] at hc
        simp at hc
      · rw [e] at hc
        simp at hc
      · intro hc
        exact hc.elim (fun a => h1 (Or.inl a))
          (fun r => r.elim (fun b => h1 (Or.inr b))
            (fun r2 => r2.elim (fun c => h2 (Or.inl c)) (fun d => h2 (Or.inr d))))

/-- C3: on a metadata dict whose `model_asset_id` is
`"a/b/base-model/v1/weights"`, the base name is the third-from-last
slash-delimited segment `"base-model"`, and the returned name is
`"base-model-ft-"` followed by the 36-character uuid. -/
theorem get_model_name_example : ∀ u : String, isUuid4String u = true →
    get_model_name_base (PyVal.dict [("model_asset_id", PyVal.str "a/b/base-model/v1/weights")]) =
      "base-model" ∧
    get_model_name
        (Except.ok (PyVal.dict [("model_asset_id", PyVal.str "a/b/base-model/v1/weights")])) u =
      Except.ok ("base-model-ft-" ++ u) ∧
    u.length = 36 := by
  intro u hu
  refine ⟨rfl, rfl, ?_⟩
  simp only [isUuid4String, Bool.and_eq_true] at hu
  have h36 : u.data.length = 36 := eq_of_beq hu.1
  cases u with
  | mk data => exact h36

/-- Witness for C3 at a concrete uuid string. -/
theorem get_model_name_example_witness :
    get_model_name
        (Except.ok (PyVal.dict [("model_asset_id", PyVal.str "a/b/base-model/v1/weights")]))
        "123e4567-e89b-12d3-a456-426614174000" =
      Except.ok "base-model-ft-123e4567-e89b-12d3-a456-426614174000" := by
  have h := (get_model_name_example "123e4567-e89b-12d3-a456-426614174000" (by decide)).2.1
  exact h.trans rfl

/-- C4: whenever `model_asset_id` holds a string, `get_properties` maps
`baseModelId` to that string with its last two slash-delimited segments
dropped and `baseModelWeightsVersion` to the constant `1.0`. -/
theorem get_properties_drops_last_two :
    ∀ (d : List (String × PyVal)) (s : String),
      dictGet d "model_asset_id" = PyVal.str s →
      get_properties d =
        Except.ok [("baseModelId", PyVal.str (dropLastTwoSlashSegments s)),
          ("baseModelWeightsVersion", PyVal.num 1)] := by
  intro d s h
  unfold get_properties dropLastTwoSlashSegments
  rw [h, dropLast_dropLast_eq_take]

/-- Witness for C4 at the concrete identifier from the spec. -/
theorem get_properties_drops_last_two_witness :
    get_properties [("model_asset_id", PyVal.str "registry/models/foo/versions/3")] =
      Except.ok [("baseModelId", PyVal.str "registry/models/foo"),
        ("baseModelWeightsVersion", PyVal.num 1)] := by
  have h := get_properties_drops_last_two
    [("model_asset_id", PyVal.str "registry/models/foo/versions/3")]
    "registry/models/foo/versions/3" rfl
  exact h.trans rfl

/-- C5: when the `model_asset_id` lookup does not produce a string with at
least three slash-delimited segments — key absent, value malformed, or the
segment extraction failing — `get_model_name` does not raise: it falls
back to `"default_model_name"` and still appends `"-ft-"` and the fresh
token. -/
theorem get_model_name_fallback :
    ∀ (d : List (String × PyVal)) (u : String),
      (∀ s, dictGet d "model_asset_id" = PyVal.str s →
        pyIndex (pySplit s "/") (-3) = Option.none) →
      get_model_name (Except.ok (PyVal.dict d)) u =
        Except.ok (DEFAULT_MODEL_NAME ++ "-ft-" ++ u) := by
  intro d u h
  have hb : get_model_name_base (PyVal.dict d) = DEFAULT_MODEL_NAME := by
    simp only [get_model_name_base, extractBase]
    cases hv : dictGet d "model_asset_id" with
    | str s => simp [h s hv]
    | none => rfl
    | int n => rfl
    | num q => rfl
    | list xs => rfl
    | dict fields => rfl
  show Except.ok (get_model_name_base (PyVal.dict d) ++ "-ft-" ++ u) = _
  rw [hb]

/-- Witness for C5: metadata with no `model_asset_id` key at all. -/
theorem get_model_name_fallback_witness :
    get_model_name (Except.ok (PyVal.dict [])) "u0" =
      Except.ok "default_model_name-ft-u0" := by
  have h := get_model_name_fallback [] "u0" (fun s hs => by simp [dictGet] at hs)
  exact h.trans rfl

/-- C6: on a metadata dict lacking the key `model_asset_id`,
`get_properties` raises (the unguarded `None.split` is an
`AttributeError`) instead of returning a map, and `register_model`
propagates the error and performs no write. -/
theorem get_properties_missing_key :
    ∀ d : List (String × PyVal), (∀ p ∈ d, p.1 ≠ "model_asset_id") →
      get_properties d = Except.error "AttributeError" ∧
      ∀ (args : Args) (ws : String)
        (registry : RegisterRequest → Except String RegisterResponse),
        register_model args d ws registry = ([], Except.error "AttributeError") := by
  intro d h
  have hg : dictGet d "model_asset_id" = PyVal.none := by
    unfold dictGet
    have hf : d.find? (fun p => p.1 == "model_asset_id") = Option.none := by
      rw [List.find?_eq_none]
      intro x hx
      simp [h x hx]
    rw [hf]
  have hp : get_properties d = Except.error "AttributeError" := by
    unfold get_properties
    rw [hg]
  refine ⟨hp, fun args ws registry => ?_⟩
  unfold register_model
  rw [hp]

/-- Witness for C6 at a concrete keyless dict. -/
theorem get_properties_missing_key_witness :
    get_properties [("other", PyVal.int 1)] = Except.error "AttributeError" :=
  (get_properties_missing_key [("other", PyVal.int 1)] (by decide)).1

/-- C9: a failure to read or parse the metadata file happens outside the
guarded block of `get_model_name` and propagates, while any successfully
parsed value — whatever its shape — always yields a name. -/
theorem get_model_name_read_error_propagates :
    (∀ (e : String) (u : String), get_model_name (Except.error e) u = Except.error e) ∧
    (∀ (v : PyVal) (u : String), ∃ name, get_model_name (Except.ok v) u = Except.ok name) :=
  ⟨fun _ _ => rfl, fun v u => ⟨get_model_name_base v ++ "-ft-" ++ u, rfl⟩⟩

/-- C8: `register_model` is oblivious to `model_version`: two argument
bags differing only in that field produce identical submitted requests and
identical file writes. -/
theorem register_model_ignores_model_version :
    ∀ (mp : String) (cts cmo : Bool) (mt mn fap : String) (v1 v2 : Option String)
      (rdf : String) (d : List (String × PyVal)) (ws : String)
      (registry : RegisterRequest → Except String RegisterResponse),
      register_model ⟨mp, cts, cmo, mt, mn, fap, v1, rdf⟩ d ws registry =
        register_model ⟨mp, cts, cmo, mt, mn, fap, v2, rdf⟩ d ws registry := by
  intro mp cts cmo mt mn fap v1 v2 rdf d ws registry
  unfold register_model buildRequest
  rfl

/-- C10: when the registry's register call fails, `register_model` writes
no file: its write list is empty and the error propagates. -/
theorem registry_error_no_write :
    ∀ (args : Args) (d : List (String × PyVal)) (ws : String)
      (registry : RegisterRequest → Except String RegisterResponse)
      (props : List (String × PyVal)) (e : String),
      get_properties d = Except.ok props →
      registry (buildRequest args ws props) = Except.error e →
      register_model args d ws registry = ([], Except.error e) := by
  intro args d ws registry props e h1 h2
  unfold register_model
  rw [h1]
  simp only [h2]

/-- Witness for C10: a concrete run against a failing registry. -/
theorem registry_error_no_write_witness :
    register_model ⟨"p", false, false, "Custom", "name", "ft.json", Option.none, "out"⟩
        [("model_asset_id", PyVal.str "a/b/c")] "ws" failRegistry =
      ([], Except.error "registry down") :=
  registry_error_no_write
    ⟨"p", false, false, "Custom", "name", "ft.json", Option.none, "out"⟩
    [("model_asset_id", PyVal.str "a/b/c")] "ws" failRegistry
    [("baseModelId", PyVal.str "a"), ("baseModelWeightsVersion", PyVal.num 1)]
    "registry down" rfl rfl

/-- C1 (amended): whenever `register_model` reaches the registry call, the
submitted name is the sanitized name — unchanged if it already matches
`VALID_MODEL_NAME_PATTERN`, with every disallowed character replaced by a
hyphen otherwise — and for every nonempty input name the submitted name
matches the pattern.  (The empty name is the exception the counterexample
exhibits: it is submitted unchanged and matches nothing.) -/
theorem register_model_sanitizes_name :
    ∀ (args : Args) (d : List (String × PyVal)) (ws : String)
      (registry : RegisterRequest → Except String RegisterResponse)
      (req : RegisterRequest) (m : RegisterResponse),
      (register_model args d ws registry).2 = Except.ok (req, m) →
      req.model_name = finalizeModelName args.model_name ∧
      (reMatchValid args.model_name = true → req.model_name = args.model_name) ∧
      (reMatchValid args.model_name = false → req.model_name = reSubNegative args.model_name) ∧
      (args.model_name ≠ "" → reMatchValid req.model_name = true) := by
  intro args d ws registry req m h
  unfold register_model at h
  split at h
  · simp at h
  · split at h
    · simp at h
    · simp at h
      obtain ⟨hb, hm2⟩ := h
      have hname : req.model_name = finalizeModelName args.model_name := by
        rw [← hb]
        rfl
      refine ⟨hname, fun hv => ?_, fun hv => ?_, fun hne => ?_⟩
      · rw [hname]
        unfold finalizeModelName
        rw [if_pos hv]
      · rw [hname]
        unfold finalizeModelName
        rw [if_neg (by simp [hv])]
      · rw [hname]
        exact finalize_valid _ hne

/-- Witness for C1 (amended): a name with a space and a bang is submitted
as its hyphenated form, which matches the pattern. -/
theorem register_model_sanitizes_name_witness :
    reMatchValid "my-model-" = true := by
  have h := register_model_sanitizes_name
    ⟨"p", false, false, "Custom", "my model!", "ft.json", Option.none, "out"⟩
    [("model_asset_id", PyVal.str "a/b/c")] "ws" demoRegistry
    ⟨"ws", "p", "my-model-", "Custom", "", [],
      [("baseModelId", PyVal.str "a"), ("baseModelWeightsVersion", PyVal.num 1)]⟩
    ⟨"azureml-id", "my-model-", 1, "Custom",
      [("baseModelId", PyVal.str "a"), ("baseModelWeightsVersion", PyVal.num 1)], [], ""⟩
    rfl
  exact h.2.2.2 (by decide)

/-- Counterexample to C1 as stated: the empty model name is submitted to
the registry unchanged (sanitization leaves it empty), and the empty
string does not satisfy `VALID_MODEL_NAME_PATTERN`. -/
theorem register_model_empty_name_counterexample :
    (register_model ⟨"p", false, false, "Custom", "", "ft.json", Option.none, "out"⟩
        [("model_asset_id", PyVal.str "a/b/c")] "ws" demoRegistry).2 =
      Except.ok
        (⟨"ws", "p", "", "Custom", "", [],
           [("baseModelId", PyVal.str "a"), ("baseModelWeightsVersion", PyVal.num 1)]⟩,
         ⟨"azureml-id", "", 1, "Custom",
           [("baseModelId", PyVal.str "a"), ("baseModelWeightsVersion", PyVal.num 1)], [], ""⟩) ∧
    reMatchValid "" = false :=
  ⟨rfl, rfl⟩

/-! Machinery for the weight-conversion claim. -/

theorem mem_saveFile (fs : List String) (n x : String) :
    x ∈ saveFile fs n ↔ x ∈ fs ∨ x = n := by
  unfold saveFile
  split
  · rename_i hn
    constructor
    · exact Or.inl
    · rintro (hx | rfl)
      · exact hx
      · exact hn
  · simp

theorem nodup_saveFile (fs : List String) (n : String) (h : fs.Nodup) :
    (saveFile fs n).Nodup := by
  unfold saveFile
  split
  · exact h
  · rename_i hn
    rw [List.nodup_append]
    refine ⟨h, List.nodup_singleton n, ?_⟩
    intro a ha hb
    rw [List.mem_singleton] at hb
    subst hb
    exact hn ha

theorem replaceFuel_nil (pat rep : List Char) : ∀ fuel, replaceFuel pat rep fuel [] = [] := by
  intro fuel
  cases fuel with
  | zero => rfl
  | succ n => rfl

theorem replaceFuel_suffix :
    ∀ (fuel : Nat) (l : List Char), l.length ≤ fuel → ".bin".data <:+ l →
      ".safetensors".data <:+ replaceFuel ".bin".data ".safetensors".data fuel l := by
  intro fuel
  induction fuel with
  | zero =>
    intro l hlen hsuf
    have hnil : l = [] := List.length_eq_zero.mp (Nat.le_zero.mp hlen)
    subst hnil
    rw [List.suffix_nil] at hsuf
    exact absurd hsuf (by decide)
  | succ n ih =>
    intro l hlen hsuf
    cases l with
    | nil =>
      rw [List.suffix_nil] at hsuf
      exact absurd hsuf (by decide)
    | cons c rest =>
      have hbl : (".bin".data).length = 4 := by decide
      simp only [replaceFuel]
      by_cases hp : (".bin".data.isPrefixOf (c :: rest)) = true
      · rw [if_pos hp]
        have hpre : ".bin".data <+: (c :: rest) := by
          exact List.isPrefixOf_iff_prefix.mp hp
        obtain ⟨d, hd⟩ := hpre
        have hdrop : (c :: rest).drop ((".bin".data).length) = d := by
          rw [← hd]
          exact List.drop_left _ _
        rw [hdrop]
        cases d with
        | nil =>
          rw [replaceFuel_nil, List.append_nil]
        | cons x d2 =>
          have hl4 := congrArg List.length hd
          rw [List.length_append, hbl] at hl4
          have hlen2 : (x :: d2).length ≤ n := by
            have hl5 : (c :: rest).length ≤ n + 1 := hlen
            omega
          have hsuf2 : ".bin".data <:+ (x :: d2) := by
            obtain ⟨t, ht⟩ := hsuf
            rw [← hd] at ht
            have hlt : t.length = (x :: d2).length := by
              have e1 := congrArg List.length ht
              rw [List.length_append, List.length_append, hbl] at e1
              omega
            by_cases hc : 4 ≤ t.length
            · have h2 : ((".bin".data) ++ (x :: d2)).take 4 = ".bin".data := by
                rw [List.take_append_eq_append_take, hbl, Nat.sub_self, List.take_zero,
                  List.append_nil]
                decide
              have h1 : (t ++ ".bin".data).take 4 = t.take 4 := by
                rw [List.take_append_eq_append_take, Nat.sub_eq_zero_of_le hc]
                simp
              rw [ht, h2] at h1
              have htake : t.take 4 = ".bin".data := h1.symm
              have hsplit : t = ".bin".data ++ t.drop 4 := by
                conv_lhs => rw [← List.take_append_drop 4 t]
                rw [htake]
              rw [hsplit, List.append_assoc] at ht
              have hfin := List.append_cancel_left ht
              rw [← hfin]
              exact List.suffix_append _ _
            · exfalso
              have hlt4 : t.length < 4 := Nat.not_le.mp hc
              have h2 : ((".bin".data) ++ (x :: d2)).take 4 = ".bin".data := by
                rw [List.take_append_eq_append_take, hbl, Nat.sub_self, List.take_zero,
                  List.append_nil]
                decide
              have h1 : (t ++ ".bin".data).take 4 = t ++ (".bin".data).take (4 - t.length) := by
                rw [List.take_append_eq_append_take]
                congr 1
                exact List.take_of_length_le (Nat.le_of_lt hlt4)
              rw [ht, h2] at h1
              cases t with
              | nil =>
                simp only [List.length_nil, List.length_cons] at hlt
                omega
              | cons a t1 =>
                cases t1 with
                | nil =>
                  simp at h1
                | cons b t2 =>
                  cases t2 with
                  | nil =>
                    simp at h1
                  | cons cc t3 =>
                    cases t3 with
                    | nil =>
                      simp at h1
                    | cons dd t4 =>
                      simp only [List.length_cons] at hlt4
                      omega
          exact (ih (x :: d2) hlen2 hsuf2).trans (List.suffix_append _ _)
      · rw [if_neg hp]
        have hsuf2 : ".bin".data <:+ rest := by
          rcases List.suffix_cons_iff.mp hsuf with hEq | hs2
          · exfalso
            apply hp
            rw [List.isPrefixOf_iff_prefix, ← hEq]
          · exact hs2
        have hlen2 : rest.length ≤ n := by
          simp only [List.length_cons] at hlen
          omega
        exact (ih rest hlen2 hsuf2).trans (List.suffix_cons _ _)

/-- A name matched as a binary-weight file never produces a converted name
that is itself matched: it always ends in `.safetensors`. -/
theorem matchesBin_convertName (f : String) (h : matchesBin f = true) :
    matchesBin (convertName f) = false := by
  have hsuf : ".bin".data <:+ f.data := by
    unfold matchesBin at h
    exact List.isSuffixOf_iff_suffix.mp h
  have hsafe : ".safetensors".data <:+
      replaceFuel ".bin".data ".safetensors".data f.data.length f.data :=
    replaceFuel_suffix f.data.length f.data (Nat.le_refl _) hsuf
  unfold matchesBin convertName pyReplace
  by_contra hne
  rw [Bool.not_eq_false] at hne
  have hb : ".bin".data <:+ replaceFuel ".bin".data ".safetensors".data f.data.length f.data :=
    List.isSuffixOf_iff_suffix.mp hne
  have hcon : ".bin".data <:+ ".safetensors".data :=
    List.suffix_of_suffix_length_le hb hsafe (by decide)
  exact absurd hcon (by decide)

theorem mem_convertLoop :
    ∀ (bins fs : List String), fs.Nodup → bins.Nodup →
      (∀ f ∈ bins, matchesBin f = true) →
      ∀ x, x ∈ convertLoop fs bins ↔
        ((x ∈ fs ∧ x ∉ bins) ∨ ∃ f, f ∈ bins ∧ x = convertName f) := by
  intro bins
  induction bins with
  | nil =>
    intro fs _ _ _ x
    simp [convertLoop]
  | cons f rest ih =>
    intro fs hfs hbins hmatch x
    have hmf : matchesBin f = true := hmatch f (by simp)
    have hef : matchesBin (convertName f) = false := matchesBin_convertName f hmf
    have hfne : convertName f ≠ f := by
      intro hEq
      rw [hEq, hmf] at hef
      exact Bool.noConfusion hef
    have hcr : convertName f ∉ rest := by
      intro hmem
      have hm2 := hmatch (convertName f) (by simp [hmem])
      rw [hef] at hm2
      exact Bool.noConfusion hm2
    have hfs2 : (removeFile (saveFile fs (convertName f)) f).Nodup :=
      (nodup_saveFile fs (convertName f) hfs).erase f
    have hrest := ih (removeFile (saveFile fs (convertName f)) f) hfs2 hbins.of_cons
      (fun g hg => hmatch g (List.mem_cons_of_mem f hg))
    have hmemfs2 : ∀ y, y ∈ removeFile (saveFile fs (convertName f)) f ↔
        (y ≠ f ∧ (y ∈ fs ∨ y = convertName f)) := by
      intro y
      unfold removeFile
      rw [(nodup_saveFile fs (convertName f) hfs).mem_erase_iff, mem_saveFile]
    simp only [convertLoop]
    rw [hrest x]
    constructor
    · rintro (⟨hx1, hx2⟩ | ⟨g, hg, rfl⟩)
      · rw [hmemfs2 x] at hx1
        obtain ⟨hxf, hx3⟩ := hx1
        rcases hx3 with hfs3 | rfl
        · exact Or.inl ⟨hfs3, by simp [hxf, hx2]⟩
        · exact Or.inr ⟨f, by simp, rfl⟩
      · exact Or.inr ⟨g, by simp [hg], rfl⟩
    · rintro (⟨hx1, hx2⟩ | ⟨g, hg, rfl⟩)
      · have hxf : x ≠ f := by
          intro hEq
          exact hx2 (by simp [hEq])
        have hxr : x ∉ rest := fun hr => hx2 (by simp [hr])
        exact Or.inl ⟨(hmemfs2 x).mpr ⟨hxf, Or.inl hx1⟩, hxr⟩
      · rcases List.mem_cons.mp hg with rfl | hgr
        · exact Or.inl ⟨(hmemfs2 _).mpr ⟨hfne, Or.inr rfl⟩, hcr⟩
        · exact Or.inr ⟨g, hgr, rfl⟩

/-- C2 (amended): on a duplicate-free directory, the conversion step
processes exactly the files whose names match the binary-weight pattern:
afterwards a name is present iff it is a non-matching original (left
untouched), or it is the `.replace(".bin", ".safetensors")` image of a
matched original; every matched original is gone. -/
theorem convert_processes_exactly_bin_files :
    ∀ (files : List String), files.Nodup →
      ∀ x, x ∈ convert_lora_weights_to_safetensors files ↔
        ((x ∈ files ∧ matchesBin x = false) ∨
         ∃ f, f ∈ files ∧ matchesBin f = true ∧ x = convertName f) := by
  intro files hnd x
  unfold convert_lora_weights_to_safetensors
  rw [mem_convertLoop (files.filter matchesBin) files hnd (hnd.filter _)
    (fun f hf => (List.mem_filter.mp hf).2) x]
  constructor
  · rintro (⟨h1, h2⟩ | ⟨f, hf, rfl⟩)
    · refine Or.inl ⟨h1, ?_⟩
      by_cases hm : matchesBin x = true
      · exact absurd (List.mem_filter.mpr ⟨h1, hm⟩) h2
      · exact (Bool.not_eq_true _) ▸ hm
    · obtain ⟨hf1, hf2⟩ := List.mem_filter.mp hf
      exact Or.inr ⟨f, hf1, hf2, rfl⟩
  · rintro (⟨h1, h2⟩ | ⟨f, hf, hm, rfl⟩)
    · refine Or.inl ⟨h1, fun hmem => ?_⟩
      rw [(List.mem_filter.mp hmem).2] at h2
      exact Bool.noConfusion h2
    · exact Or.inr ⟨f, List.mem_filter.mpr ⟨hf, hm⟩, rfl⟩

/-- Witness for C2 (amended) on the spec's example directory: after
conversion, `a.safetensors` exists, the untouched `c.safetensors` is
still there, and `a.bin` is gone. -/
theorem convert_processes_exactly_bin_files_witness :
    "a.safetensors" ∈ convert_lora_weights_to_safetensors ["a.bin", "b.bin", "c.safetensors"] ∧
    "c.safetensors" ∈ convert_lora_weights_to_safetensors ["a.bin", "b.bin", "c.safetensors"] ∧
    "a.bin" ∉ convert_lora_weights_to_safetensors ["a.bin", "b.bin", "c.safetensors"] := by
  have h := convert_processes_exactly_bin_files ["a.bin", "b.bin", "c.safetensors"] (by decide)
  refine ⟨(h "a.safetensors").mpr (Or.inr ⟨"a.bin", by decide, by decide, by decide⟩),
    (h "c.safetensors").mpr (Or.inl ⟨by decide, by decide⟩), fun hmem => ?_⟩
  rcases (h "a.bin").mp hmem with ⟨_, hm⟩ | ⟨f, hf, hmf, hEq⟩
  · exact absurd hm (by decide)
  · have : matchesBin (convertName f) = false := matchesBin_convertName f hmf
    rw [← hEq] at this
    exact absurd this (by decide)

/-- Counterexample to C2 as stated: `a.bin.bin` matches the binary-weight
pattern, but the file written for it is `a.safetensors.safetensors` —
`.replace` substitutes every occurrence of `.bin` — not the same base
name with the `.safetensors` extension (neither `a.bin.safetensors` nor
`a.safetensors` is produced), and the original is deleted. -/
theorem convert_counterexample :
    matchesBin "a.bin.bin" = true ∧
    convert_lora_weights_to_safetensors ["a.bin.bin"] = ["a.safetensors.safetensors"] ∧
    List.elem "a.bin.safetensors" (convert_lora_weights_to_safetensors ["a.bin.bin"]) = false ∧
    List.elem "a.safetensors" (convert_lora_weights_to_safetensors ["a.bin.bin"]) = false ∧
    List.elem "a.bin.bin" (convert_lora_weights_to_safetensors ["a.bin.bin"]) = false := by
  refine ⟨by decide, by decide, by decide, by decide, by decide⟩
